import Mathlib

/-!
Shallow embedding of the stock-analysis pipeline of this repository
(`src/component/GoogleStockAnalysis.jsx`, `src/main.jsx`, `src/lib/dataSources.js`).

Numbers are modelled by `ℚ`; the JavaScript division-by-zero behaviour
(which produces the IEEE values `NaN`, `Infinity`, `-Infinity` instead of
raising an error) is modelled by the type `JsNum` below, so that code paths
which really can divide by zero are embedded faithfully.
-/

/-- JavaScript number resulting from an arithmetic expression: either a finite
value (modelled exactly by a rational) or one of the non-finite IEEE values
`NaN`, `Infinity`, `-Infinity` that JS division by zero produces. -/
inductive JsNum where
  | num (q : ℚ)
  | nan
  | inf
  | ninf
deriving DecidableEq, Repr

/-- JavaScript division `a / b` of two finite numbers: division by zero yields
`NaN` when the numerator is also zero, otherwise a signed infinity (the zero
denominators arising in this code are `+0`). -/
def jsDiv (a b : ℚ) : JsNum :=
  if b = 0 then (if a = 0 then JsNum.nan else if 0 < a then JsNum.inf else JsNum.ninf)
  else JsNum.num (a / b)

/-- JavaScript subtraction `a - x` of a finite number and a possibly
non-finite one. -/
def jsSubQN (a : ℚ) (x : JsNum) : JsNum :=
  match x with
  | JsNum.num q => JsNum.num (a - q)
  | JsNum.nan => JsNum.nan
  | JsNum.inf => JsNum.ninf
  | JsNum.ninf => JsNum.inf

/-- JavaScript multiplication `x * q` of a possibly non-finite number by a
finite one (`Infinity * 0` is `NaN`). -/
def jsMulNQ (x : JsNum) (q : ℚ) : JsNum :=
  match x with
  | JsNum.num p => JsNum.num (p * q)
  | JsNum.nan => JsNum.nan
  | JsNum.inf => if 0 < q then JsNum.inf else if q < 0 then JsNum.ninf else JsNum.nan
  | JsNum.ninf => if 0 < q then JsNum.ninf else if q < 0 then JsNum.inf else JsNum.nan

/-- JavaScript division `x / q` of a possibly non-finite number by a finite
one (`Infinity / 0` is `Infinity`, with the `+0` sign convention of this
code's denominators). -/
def jsDivNQ (x : JsNum) (q : ℚ) : JsNum :=
  match x with
  | JsNum.num p => jsDiv p q
  | JsNum.nan => JsNum.nan
  | JsNum.inf => if q < 0 then JsNum.ninf else JsNum.inf
  | JsNum.ninf => if q < 0 then JsNum.inf else JsNum.ninf

/-! ## Evaluator (`evaluateModel` in both files)

`evaluateModel(actual, predicted)` computes, among other metrics,
`r2 = 1 - ssRes / ssTot` with `ssTot = Σ (v - mean)²` over `actual` and
`ssRes = Σ (v - predicted[i])²`, with no guard on `ssTot`.  Only the `r2`
field is modelled here (`mse`/`mae` are orthogonal sums and `rmse` is an
irrational square root).  The callers always pass equal-length sequences;
`zipWith` encodes the `(v, predicted[i])` pairing under that precondition. -/

/-- Mean of `actual` as computed by `evaluateModel`:
`actual.reduce((a, b) => a + b, 0) / n`. -/
def evalMean (actual : List ℚ) : ℚ :=
  actual.sum / (actual.length : ℚ)

/-- Total sum of squares of `evaluateModel`:
`actual.reduce((s, v) => s + (v - mean) ** 2, 0)`. -/
def ssTot (actual : List ℚ) : ℚ :=
  (actual.map (fun v => (v - evalMean actual) ^ 2)).sum

/-- Residual sum of squares of `evaluateModel`:
`actual.reduce((s, v, i) => s + (v - predicted[i]) ** 2, 0)`. -/
def ssRes (actual predicted : List ℚ) : ℚ :=
  (actual.zipWith (fun v p => (v - p) ^ 2) predicted).sum

/-- The `r2` value computed by `evaluateModel`: the expression
`1 - ssRes / ssTot`, evaluated with JavaScript division semantics.  The
function is total — JS division by zero does not throw and the code has no
guard on `ssTot`, so no failure or `undefined` sentinel can occur. -/
def evaluateR2 (actual predicted : List ℚ) : JsNum :=
  jsSubQN 1 (jsDiv (ssRes actual predicted) (ssTot actual))

/-- Modelled from the spec: the evaluator demanded by the specification
"fails (or returns a sentinel undefined) when SStot is zero rather than
dividing by zero"; `none` is the sentinel / failure outcome. -/
def evaluateR2Spec (actual predicted : List ℚ) : Option ℚ :=
  if ssTot actual = 0 then none
  else some (1 - ssRes actual predicted / ssTot actual)

/-- Elements of a list of squares are nonnegative, hence so is the sum. -/
theorem ssRes_nonneg (actual predicted : List ℚ) : 0 ≤ ssRes actual predicted := by
  unfold ssRes
  apply List.sum_nonneg
  intro x hx
  rw [List.mem_iff_getElem] at hx
  obtain ⟨n, hlt, hn⟩ := hx
  rw [List.getElem_zipWith] at hn
  simp only [← hn]
  positivity

/-- Zero variance of `actual` makes `ssTot` vanish. -/
theorem ssTot_eq_zero_of_const (actual : List ℚ)
    (h : ∀ x ∈ actual, x = evalMean actual) : ssTot actual = 0 := by
  unfold ssTot
  apply List.sum_eq_zero
  intro x hx
  rw [List.mem_map] at hx
  obtain ⟨v, hv, rfl⟩ := hx
  rw [h v hv]
  ring

/-- Claim C1 (counterexample): on the zero-variance input
`actual = [5, 5]`, `predicted = [5, 6]` the spec-modelled evaluator returns
the `undefined` sentinel, but the code's evaluator performs the division
`ssRes / ssTot = 1 / 0` and returns the ordinary (non-signalling) IEEE
number `-Infinity` — it neither fails nor returns a sentinel, refuting the
claim at this concrete input. -/
theorem evaluateR2_zero_variance_counterexample :
    (∀ x ∈ [(5 : ℚ), 5], x = evalMean [(5 : ℚ), 5]) ∧
    evaluateR2Spec [(5 : ℚ), 5] [5, 6] = none ∧
    evaluateR2 [(5 : ℚ), 5] [5, 6] = JsNum.ninf ∧
    JsNum.ninf ≠ JsNum.nan := by
  refine ⟨?_, ?_, ?_, ?_⟩
  · intro x hx
    fin_cases hx <;> norm_num [evalMean]
  · norm_num [evaluateR2Spec, ssTot, ssRes, evalMean]
  · norm_num [evaluateR2, ssTot, ssRes, evalMean, jsDiv, jsSubQN]
  · simp

/-- Claim C1 (amended): when every element of `actual` equals its mean
(`SStot = 0`) and `predicted` has the same length, the evaluator performs
the division anyway; the resulting R² is the non-finite IEEE value `NaN`
(when `SSres = 0`) or `-Infinity` (when `SSres > 0`), and in particular is
never silently coerced to `0` or to any finite numeric value. -/
theorem evaluateR2_zero_variance_nonfinite (actual predicted : List ℚ)
    (hlen : predicted.length = actual.length)
    (hconst : ∀ x ∈ actual, x = evalMean actual) :
    (evaluateR2 actual predicted = JsNum.nan ∨
      evaluateR2 actual predicted = JsNum.ninf) ∧
    ∀ q : ℚ, evaluateR2 actual predicted ≠ JsNum.num q := by
  have htot : ssTot actual = 0 := ssTot_eq_zero_of_const actual hconst
  have hres : 0 ≤ ssRes actual predicted := ssRes_nonneg actual predicted
  unfold evaluateR2 jsDiv
  rw [htot]
  rcases eq_or_lt_of_le hres with h0 | hpos
  · simp [← h0, jsSubQN]
  · simp [if_neg (ne_of_gt hpos), if_pos hpos, jsSubQN, not_lt.mpr (le_of_lt hpos)]

/-- Witness for the amended claim C1 at the concrete zero-variance input
`actual = [5, 5]`, `predicted = [5, 6]`. -/
theorem evaluateR2_zero_variance_nonfinite_witness :
    (evaluateR2 [(5 : ℚ), 5] [5, 6] = JsNum.nan ∨
      evaluateR2 [(5 : ℚ), 5] [5, 6] = JsNum.ninf) ∧
    ∀ q : ℚ, evaluateR2 [(5 : ℚ), 5] [5, 6] ≠ JsNum.num q :=
  evaluateR2_zero_variance_nonfinite [(5 : ℚ), 5] [5, 6] (by simp)
    (by intro x hx; fin_cases hx <;> norm_num [evalMean])

/-! ## Cleaning engine (`cleanData` in both files)

An OHLCV record.  `close` and `volume` are `Option ℚ` because the raw input
may contain nulls (`none`); the calendar date is modelled by a `Nat` key.
`open` is a Lean keyword, so that field is named `opn`. -/

/-- Raw OHLCV record of the pipeline. -/
structure StockRec where
  date : Nat
  opn : ℚ
  high : ℚ
  low : ℚ
  close : Option ℚ
  volume : Option ℚ
deriving DecidableEq, Repr, Inhabited

/-- Close of a record coerced the way JavaScript arithmetic coerces `null`
to `0` (`null - x`, `s + null`, ... all treat `null` as `0`). -/
def closeQ (r : StockRec) : ℚ :=
  r.close.getD 0

/-- Deduplication pass of `cleanData`: `cleaned.filter(row => ...)` keeps the
first occurrence of each date and counts every dropped later occurrence. -/
def dedupGo (seen : List Nat) : List StockRec → List StockRec × ℕ
  | [] => ([], 0)
  | r :: rest =>
      if r.date ∈ seen then
        ((dedupGo seen rest).1, (dedupGo seen rest).2 + 1)
      else
        (r :: (dedupGo (r.date :: seen) rest).1, (dedupGo (r.date :: seen) rest).2)


/-- Forward-fill pass of `cleanData` for the records after index 0:
`if (cleaned[i].close == null && i > 0) { cleaned[i].close = cleaned[i-1].close;
issues.nulls++; }` and the same for `volume`.  `pc`/`pv` are the already
forward-filled close/volume of the previous record; the second component is
the `issues.nulls` counter. -/
def ffillGo (pc pv : Option ℚ) : List StockRec → List StockRec × ℕ
  | [] => ([], 0)
  | r :: rest =>
      ({ r with close := if r.close = none then pc else r.close,
                volume := if r.volume = none then pv else r.volume } ::
          (ffillGo (if r.close = none then pc else r.close)
            (if r.volume = none then pv else r.volume) rest).1,
        (if r.close = none then 1 else 0) + (if r.volume = none then 1 else 0) +
          (ffillGo (if r.close = none then pc else r.close)
            (if r.volume = none then pv else r.volume) rest).2)

/-- Forward-fill pass of `cleanData`: the record at index 0 is never filled
(the loop guards on `i > 0`); it only seeds the previous-record values. -/
def ffill : List StockRec → List StockRec × ℕ
  | [] => ([], 0)
  | r :: rest =>
      (r :: (ffillGo r.close r.volume rest).1, (ffillGo r.close r.volume rest).2)

/-- The forward-filled series. -/
def ffillList (s : List StockRec) : List StockRec :=
  (ffill s).1

/-- The `issues.nulls` counter accumulated by the forward-fill pass. -/
def ffillCount (s : List StockRec) : ℕ :=
  (ffill s).2

/-- Close field of the record at index `i`, `none` when the index is out of
range or the stored close is null. -/
def closeAt (l : List StockRec) (i : ℕ) : Option ℚ :=
  (l[i]?).bind StockRec.close

/-- Volume field of the record at index `i`. -/
def volumeAt (l : List StockRec) (i : ℕ) : Option ℚ :=
  (l[i]?).bind StockRec.volume

theorem closeAt_cons_succ (r : StockRec) (l : List StockRec) (j : ℕ) :
    closeAt (r :: l) (j + 1) = closeAt l j := by
  simp [closeAt]

theorem volumeAt_cons_succ (r : StockRec) (l : List StockRec) (j : ℕ) :
    volumeAt (r :: l) (j + 1) = volumeAt l j := by
  simp [volumeAt]

theorem ffillGo_count (pc pv : Option ℚ) (l : List StockRec) :
    (ffillGo pc pv l).2 =
      l.countP (fun r => decide (r.close = none)) +
        l.countP (fun r => decide (r.volume = none)) := by
  induction l generalizing pc pv with
  | nil => simp [ffillGo]
  | cons r rest ih =>
      simp only [ffillGo, List.countP_cons]
      rw [ih]
      by_cases hc : r.close = none <;> by_cases hv : r.volume = none <;>
        simp [hc, hv] <;> omega

/-- Claim C10: the `issues.nulls` counter counts individual field fills —
for any series it equals the number of records after index 0 with a null
close plus the number with a null volume, so one record with both fields
null contributes twice. -/
theorem ffillCount_counts_field_fills (s : List StockRec) :
    ffillCount s =
      (s.drop 1).countP (fun r => decide (r.close = none)) +
        (s.drop 1).countP (fun r => decide (r.volume = none)) := by
  cases s with
  | nil => simp [ffillCount, ffill]
  | cons r rest => simp [ffillCount, ffill, ffillGo_count]

theorem ffillGo_length (pc pv : Option ℚ) (l : List StockRec) :
    (ffillGo pc pv l).1.length = l.length := by
  induction l generalizing pc pv with
  | nil => rfl
  | cons r rest ih => simp [ffillGo, ih]

theorem ffillList_length (s : List StockRec) :
    (ffillList s).length = s.length := by
  cases s with
  | nil => rfl
  | cons r rest => simp [ffillList, ffill, ffillGo_length]

/-- Head of the forward-fill output of `ffillGo`. -/
theorem ffillGo_closeAt_zero (pc pv : Option ℚ) (r : StockRec) (l : List StockRec) :
    closeAt (ffillGo pc pv (r :: l)).1 0 =
      (if r.close = none then pc else r.close) := by
  simp [ffillGo, closeAt]

theorem ffillGo_volumeAt_zero (pc pv : Option ℚ) (r : StockRec) (l : List StockRec) :
    volumeAt (ffillGo pc pv (r :: l)).1 0 =
      (if r.volume = none then pv else r.volume) := by
  simp [ffillGo, volumeAt]

/-- A record with null close at position `j+1` of the input receives the
(already filled) close of position `j`. -/
theorem ffillGo_closeAt_succ (pc pv : Option ℚ) (l : List StockRec) (j : ℕ)
    (hj : j + 1 < l.length) (h : closeAt l (j + 1) = none) :
    closeAt (ffillGo pc pv l).1 (j + 1) = closeAt (ffillGo pc pv l).1 j := by
  induction l generalizing pc pv j with
  | nil => simp at hj
  | cons r rest ih =>
      cases j with
      | zero =>
          cases rest with
          | nil => simp at hj
          | cons r2 rest2 =>
              rw [closeAt_cons_succ] at h
              simp [closeAt] at h
              show closeAt (_ :: (ffillGo _ _ (r2 :: rest2)).1) 1 =
                closeAt (_ :: (ffillGo _ _ (r2 :: rest2)).1) 0
              rw [closeAt_cons_succ, ffillGo_closeAt_zero]
              simp [closeAt, h]
      | succ k =>
          rw [closeAt_cons_succ] at h
          have hlen : k + 1 < rest.length := by simpa using hj
          show closeAt (_ :: (ffillGo _ _ rest).1) (k + 2) =
            closeAt (_ :: (ffillGo _ _ rest).1) (k + 1)
          rw [closeAt_cons_succ, closeAt_cons_succ]
          exact ih _ _ k hlen h

theorem ffillGo_volumeAt_succ (pc pv : Option ℚ) (l : List StockRec) (j : ℕ)
    (hj : j + 1 < l.length) (h : volumeAt l (j + 1) = none) :
    volumeAt (ffillGo pc pv l).1 (j + 1) = volumeAt (ffillGo pc pv l).1 j := by
  induction l generalizing pc pv j with
  | nil => simp at hj
  | cons r rest ih =>
      cases j with
      | zero =>
          cases rest with
          | nil => simp at hj
          | cons r2 rest2 =>
              rw [volumeAt_cons_succ] at h
              simp [volumeAt] at h
              show volumeAt (_ :: (ffillGo _ _ (r2 :: rest2)).1) 1 =
                volumeAt (_ :: (ffillGo _ _ (r2 :: rest2)).1) 0
              rw [volumeAt_cons_succ, ffillGo_volumeAt_zero]
              simp [volumeAt, h]
      | succ k =>
          rw [volumeAt_cons_succ] at h
          have hlen : k + 1 < rest.length := by simpa using hj
          show volumeAt (_ :: (ffillGo _ _ rest).1) (k + 2) =
            volumeAt (_ :: (ffillGo _ _ rest).1) (k + 1)
          rw [volumeAt_cons_succ, volumeAt_cons_succ]
          exact ih _ _ k hlen h

/-- Claim C4: forward-fill sets the output value at a null index `i > 0` to
the output value at `i - 1` (so null runs inherit the last value before the
run), and index 0 is left as given (a null there stays null). -/
theorem ffill_forward_fill (s : List StockRec) (i : ℕ) (h0 : 0 < i)
    (hi : i < s.length) :
    (closeAt s i = none → closeAt (ffillList s) i = closeAt (ffillList s) (i - 1)) ∧
    (volumeAt s i = none → volumeAt (ffillList s) i = volumeAt (ffillList s) (i - 1)) ∧
    closeAt (ffillList s) 0 = closeAt s 0 ∧
    volumeAt (ffillList s) 0 = volumeAt s 0 := by
  cases s with
  | nil => simp at hi
  | cons r rest =>
      obtain ⟨j, rfl⟩ : ∃ j, i = j + 1 := ⟨i - 1, by omega⟩
      have hfl : ffillList (r :: rest) = r :: (ffillGo r.close r.volume rest).1 := rfl
      refine ⟨?_, ?_, ?_, ?_⟩
      · intro h
        rw [closeAt_cons_succ] at h
        cases j with
        | zero =>
            cases rest with
            | nil => simp at hi
            | cons r2 rest2 =>
                simp [closeAt] at h
                rw [hfl, Nat.add_sub_cancel, closeAt_cons_succ, ffillGo_closeAt_zero]
                simp [closeAt, h]
        | succ k =>
            rw [hfl, Nat.add_sub_cancel, closeAt_cons_succ, closeAt_cons_succ]
            exact ffillGo_closeAt_succ r.close r.volume rest k (by simpa using hi) h
      · intro h
        rw [volumeAt_cons_succ] at h
        cases j with
        | zero =>
            cases rest with
            | nil => simp at hi
            | cons r2 rest2 =>
                simp [volumeAt] at h
                rw [hfl, Nat.add_sub_cancel, volumeAt_cons_succ, ffillGo_volumeAt_zero]
                simp [volumeAt, h]
        | succ k =>
            rw [hfl, Nat.add_sub_cancel, volumeAt_cons_succ, volumeAt_cons_succ]
            exact ffillGo_volumeAt_succ r.close r.volume rest k (by simpa using hi) h
      · rw [hfl]; simp [closeAt]
      · rw [hfl]; simp [volumeAt]

/-- Concrete two-record series whose second record has null close and null
volume. -/
def ffillRowsExample : List StockRec :=
  [{ date := 0, opn := 1, high := 1, low := 1, close := some 10, volume := some 5 },
   { date := 1, opn := 1, high := 1, low := 1, close := none, volume := none }]

/-- Witness for claim C4 at index 1 of the concrete series. -/
theorem ffill_forward_fill_witness :
    (closeAt ffillRowsExample 1 = none →
      closeAt (ffillList ffillRowsExample) 1 = closeAt (ffillList ffillRowsExample) 0) ∧
    (volumeAt ffillRowsExample 1 = none →
      volumeAt (ffillList ffillRowsExample) 1 = volumeAt (ffillList ffillRowsExample) 0) ∧
    closeAt (ffillList ffillRowsExample) 0 = closeAt ffillRowsExample 0 ∧
    volumeAt (ffillList ffillRowsExample) 0 = volumeAt ffillRowsExample 0 :=
  ffill_forward_fill ffillRowsExample 1 (by norm_num)
    (by norm_num [ffillRowsExample])

/-! ## Claim C2: effect of `cleanData` on the caller's raw array

`cleanData` starts with `let cleaned = [...rawData]`, a shallow copy: the
array is new but the row objects are shared with the caller.  The
deduplication `filter` keeps the shared row objects, the forward-fill loop
then assigns `cleaned[i].close = ...` / `cleaned[i].volume = ...` directly
into those shared objects, and only the outlier pass allocates fresh
objects (`{ ...row }`).  `rawAfterClean` computes the caller's raw series
as observed after the call, in one pass: a record whose date was already
seen is a dropped duplicate (untouched); the first kept record is never
filled; every later kept record has null close/volume overwritten in place
from the previous kept record's (already filled) values. -/

/-- Caller-visible raw series after `cleanData`: `seen` is the set of dates
already kept, `prev` the filled close/volume of the last kept record
(`none` while no record has been kept yet). -/
def rawAfterGo (seen : List Nat) (prev : Option (Option ℚ × Option ℚ)) :
    List StockRec → List StockRec
  | [] => []
  | r :: rest =>
      if r.date ∈ seen then
        r :: rawAfterGo seen prev rest
      else
        match prev with
        | none => r :: rawAfterGo (r.date :: seen) (some (r.close, r.volume)) rest
        | some (pc, pv) =>
            { r with close := if r.close = none then pc else r.close,
                     volume := if r.volume = none then pv else r.volume } ::
              rawAfterGo (r.date :: seen)
                (some (if r.close = none then pc else r.close,
                       if r.volume = none then pv else r.volume)) rest

/-- The caller's raw array after `cleanData(raw)` returns. -/
def rawAfterClean (raw : List StockRec) : List StockRec :=
  rawAfterGo [] none raw

/-- Claim C2 (counterexample): a two-record raw series whose second record
has a null close is mutated by `cleanData` — after the call the caller's
second record carries the forward-filled close `10`, so the cleaning stage
does update the prior stage's records in place. -/
theorem cleanData_mutates_raw_counterexample :
    rawAfterClean
        [⟨0, 1, 1, 1, some 10, some 5⟩, ⟨1, 1, 1, 1, none, some 6⟩] ≠
      [⟨0, 1, 1, 1, some 10, some 5⟩, ⟨1, 1, 1, 1, none, some 6⟩] := by
  simp [rawAfterClean, rawAfterGo]

/-- Claim C2 (amended): the deduplication and outlier passes never mutate
the caller's records, and when no record of the raw series has a null
close or volume the forward-fill pass writes nothing either, so the
caller's raw series is left unchanged; in general a kept record after the
first with a null close/volume is overwritten in place. -/
theorem cleanData_preserves_raw_of_no_nulls (raw : List StockRec)
    (h : ∀ r ∈ raw, r.close ≠ none ∧ r.volume ≠ none) :
    rawAfterClean raw = raw := by
  have main : ∀ (l : List StockRec) (seen : List Nat)
      (prev : Option (Option ℚ × Option ℚ)),
      (∀ r ∈ l, r.close ≠ none ∧ r.volume ≠ none) →
      rawAfterGo seen prev l = l := by
    intro l
    induction l with
    | nil => intro seen prev _; rfl
    | cons r rest ih =>
        intro seen prev hl
        have hr := hl r (List.mem_cons_self r rest)
        have hrest : ∀ t ∈ rest, t.close ≠ none ∧ t.volume ≠ none :=
          fun t ht => hl t (List.mem_cons_of_mem r ht)
        by_cases hd : r.date ∈ seen
        · simp [rawAfterGo, hd, ih _ _ hrest]
        · cases prev with
          | none => simp [rawAfterGo, hd, ih _ _ hrest]
          | some pcv =>
              obtain ⟨pc, pv⟩ := pcv
              simp [rawAfterGo, hd, hr.1, hr.2, ih _ _ hrest]
  exact main raw [] none h

/-- Witness for the amended claim C2 on a concrete null-free raw series
(with a duplicate date, which is dropped but not mutated). -/
theorem cleanData_preserves_raw_of_no_nulls_witness :
    rawAfterClean
        [⟨0, 1, 1, 1, some 10, some 5⟩, ⟨0, 1, 1, 1, some 11, some 6⟩,
          ⟨1, 2, 2, 2, some 12, some 7⟩] =
      [⟨0, 1, 1, 1, some 10, some 5⟩, ⟨0, 1, 1, 1, some 11, some 6⟩,
        ⟨1, 2, 2, 2, some 12, some 7⟩] :=
  cleanData_preserves_raw_of_no_nulls _ (by intro r hr; fin_cases hr <;> simp)

/-! ## Outlier correction pass of `cleanData`

`cleanData` computes the global median and MAD of all closes once, then
maps over the records: a record whose modified z-score exceeds 3.5 gets its
close replaced by the median of a 5-wide window `cleaned.slice(max(0, idx-2),
min(len, idx+3))` taken from the captured pre-correction array (the `map`
reassigns `cleaned` only after it completes), and `issues.outliers` is
incremented.  `sorted[Math.floor(len / 2)]` is the upper-middle median. -/

/-- JavaScript numeric array sort `[...xs].sort((a, b) => a - b)`. -/
def sortQ (l : List ℚ) : List ℚ :=
  l.insertionSort (· ≤ ·)

/-- Median as this code computes it: `sorted[Math.floor(len / 2)]`
(upper-middle element; `0` stands for the out-of-range `undefined` of an
empty array, which the nonempty-series claims never hit). -/
def jsMedian (l : List ℚ) : ℚ :=
  (sortQ l).getD (l.length / 2) 0

/-- The closes of a series as JavaScript arithmetic sees them. -/
def closesOf (s : List StockRec) : List ℚ :=
  s.map closeQ

/-- Global median of the closes, computed once before any correction. -/
def globalMedian (s : List StockRec) : ℚ :=
  jsMedian (closesOf s)

/-- Median absolute deviation of the closes from the global median. -/
def madRaw (s : List StockRec) : ℚ :=
  jsMedian ((closesOf s).map (fun v => |v - globalMedian s|))

/-- The MAD with the `|| 1` substitution applied when it is zero. -/
def globalMad (s : List StockRec) : ℚ :=
  if madRaw s = 0 then 1 else madRaw s

/-- Median of the closes in the window
`cleaned.slice(Math.max(0, idx - 2), Math.min(cleaned.length, idx + 3))`
of the pre-correction series. -/
def winMedianAt (s : List StockRec) (idx : ℕ) : ℚ :=
  jsMedian (closesOf ((s.drop (idx - 2)).take (min s.length (idx + 3) - (idx - 2))))

/-- The correction test `Math.abs((row.close - median) / mad) > 3.5` as the
code writes it (absolute value of the quotient). -/
def outPred (med mad : ℚ) (r : StockRec) : Bool :=
  decide (3.5 < |(closeQ r - med) / mad|)

/-- The correction map of `cleanData`, carrying the running index of
`cleaned.map((row, idx) => ...)` and the `issues.outliers` counter.  The
window median is always taken from `orig`, the captured pre-correction
series. -/
def outGo (orig : List StockRec) (med mad : ℚ) : ℕ → List StockRec → List StockRec × ℕ
  | _, [] => ([], 0)
  | idx, r :: rest =>
      if outPred med mad r then
        ({ r with close := some (winMedianAt orig idx) } ::
            (outGo orig med mad (idx + 1) rest).1,
          (outGo orig med mad (idx + 1) rest).2 + 1)
      else
        (r :: (outGo orig med mad (idx + 1) rest).1,
          (outGo orig med mad (idx + 1) rest).2)

/-- The outlier-correction stage of `cleanData`. -/
def outlierFix (s : List StockRec) : List StockRec × ℕ :=
  outGo s (globalMedian s) (globalMad s) 0 s

theorem outGo_getElem? (orig : List StockRec) (med mad : ℚ) (start j : ℕ)
    (l : List StockRec) :
    (outGo orig med mad start l).1[j]? =
      (l[j]?).map (fun r =>
        if outPred med mad r then
          { r with close := some (winMedianAt orig (start + j)) }
        else r) := by
  induction l generalizing start j with
  | nil => simp [outGo]
  | cons r rest ih =>
      cases j with
      | zero => by_cases hp : outPred med mad r <;> simp [outGo, hp]
      | succ k =>
          have harith : start + (k + 1) = (start + 1) + k := by omega
          by_cases hp : outPred med mad r <;>
            simp [outGo, hp, ih (start + 1) k, harith]

theorem outGo_count (orig : List StockRec) (med mad : ℚ) (start : ℕ)
    (l : List StockRec) :
    (outGo orig med mad start l).2 = l.countP (outPred med mad) := by
  induction l generalizing start with
  | nil => simp [outGo]
  | cons r rest ih =>
      by_cases hp : outPred med mad r <;>
        simp [outGo, hp, ih (start + 1), List.countP_cons]

/-- An element picked by `jsMedian` from a list of nonnegative values is
nonnegative (and so is the `0` default of the empty case). -/
theorem jsMedian_nonneg (l : List ℚ) (h : ∀ x ∈ l, 0 ≤ x) : 0 ≤ jsMedian l := by
  unfold jsMedian
  rcases hk : (sortQ l)[l.length / 2]? with _ | x
  · simp [List.getD, hk]
  · have hx : x ∈ sortQ l := List.getElem?_mem hk
    have hx2 : x ∈ l := (List.perm_insertionSort (· ≤ ·) l).mem_iff.mp hx
    simpa [List.getD, hk] using h x hx2

/-- The guarded MAD is strictly positive. -/
theorem globalMad_pos (s : List StockRec) : 0 < globalMad s := by
  unfold globalMad
  by_cases h : madRaw s = 0
  · simp [h]
  · have hn : 0 ≤ madRaw s := by
      apply jsMedian_nonneg
      intro x hx
      rw [List.mem_map] at hx
      obtain ⟨v, _, rfl⟩ := hx
      exact abs_nonneg _
    simp only [h, if_false]
    exact lt_of_le_of_ne hn (Ne.symm h)

/-- Claim C3: outlier correction uses one global median and one guarded
global MAD; the output record at every index `i` is the input record with
its close replaced by the median of the up-to-5-record window of the
pre-correction series exactly when `|close - median| / MAD > 3.5`, and
otherwise unchanged; the `issues.outliers` counter counts exactly the
corrected records, and the guarded MAD is positive so no correction feeds
back into another record's decision or window. -/
theorem outlierFix_characterization (s : List StockRec) (hne : s ≠ [])
    (hdef : ∀ r ∈ s, r.close ≠ none) (i : ℕ) (hi : i < s.length) :
    (outlierFix s).1[i]? =
      some (if 3.5 < |closeQ s[i] - globalMedian s| / globalMad s then
        { s[i] with close := some (winMedianAt s i) }
      else s[i]) ∧
    (outlierFix s).2 =
      s.countP (fun r => decide (3.5 < |closeQ r - globalMedian s| / globalMad s)) ∧
    0 < globalMad s := by
  have hmad := globalMad_pos s
  have habs : ∀ c : ℚ, |(c - globalMedian s) / globalMad s| =
      |c - globalMedian s| / globalMad s := by
    intro c
    rw [abs_div, abs_of_pos hmad]
  refine ⟨?_, ?_, hmad⟩
  · rw [outlierFix, outGo_getElem?, List.getElem?_eq_getElem hi]
    simp [outPred, habs]
  · rw [outlierFix, outGo_count]
    apply List.countP_congr
    intro r _
    simp [outPred, habs]

/-- Witness for claim C3 on a concrete three-record series whose third
close is a gross outlier relative to the first two. -/
theorem outlierFix_characterization_witness :
    ((outlierFix
        [⟨0, 1, 1, 1, some 10, some 5⟩, ⟨1, 1, 1, 1, some 11, some 5⟩,
          ⟨2, 1, 1, 1, some 100, some 5⟩]).1[2]? =
      some (if 3.5 < |closeQ (⟨2, 1, 1, 1, some 100, some 5⟩ : StockRec) -
          globalMedian [⟨0, 1, 1, 1, some 10, some 5⟩, ⟨1, 1, 1, 1, some 11, some 5⟩,
            ⟨2, 1, 1, 1, some 100, some 5⟩]| /
          globalMad [⟨0, 1, 1, 1, some 10, some 5⟩, ⟨1, 1, 1, 1, some 11, some 5⟩,
            ⟨2, 1, 1, 1, some 100, some 5⟩] then
        { (⟨2, 1, 1, 1, some 100, some 5⟩ : StockRec) with
            close := some (winMedianAt [⟨0, 1, 1, 1, some 10, some 5⟩,
              ⟨1, 1, 1, 1, some 11, some 5⟩, ⟨2, 1, 1, 1, some 100, some 5⟩] 2) }
      else ⟨2, 1, 1, 1, some 100, some 5⟩)) ∧
    0 < globalMad [⟨0, 1, 1, 1, some 10, some 5⟩, ⟨1, 1, 1, 1, some 11, some 5⟩,
      ⟨2, 1, 1, 1, some 100, some 5⟩] := by
  have h := outlierFix_characterization
    [⟨0, 1, 1, 1, some 10, some 5⟩, ⟨1, 1, 1, 1, some 11, some 5⟩,
      ⟨2, 1, 1, 1, some 100, some 5⟩] (by simp)
    (by intro r hr; fin_cases hr <;> simp) 2 (by simp)
  exact ⟨h.1, h.2.2⟩

/-! ## Indicator engine (`calculateTechnicalIndicators` / `indicators`)

All indicator fields are pure functions of the closes of the cleaned
series, so they are defined here over the list of closes `cs : List ℚ`
(the record's other fields are carried through unchanged by the `map`). -/

/-- Close-to-close changes of a window as the code builds them:
`win.map((d, j, win) => (j ? d.close - win[j-1].close : 0))` — the first
entry is `0`, each later entry is the difference to its predecessor. -/
def jsChangesGo (prev : ℚ) : List ℚ → List ℚ
  | [] => []
  | x :: xs => (x - prev) :: jsChangesGo x xs

/-- Changes list of a window, with the leading `0` for index 0. -/
def jsChanges : List ℚ → List ℚ
  | [] => []
  | x :: xs => 0 :: jsChangesGo x xs

/-- The 14-element window `arr.slice(i - 13, i + 1)` of closes ending at
index `i` (Nat subtraction clips at 0 exactly like the JS slice). -/
def rsiWindow (cs : List ℚ) (i : ℕ) : List ℚ :=
  (cs.drop (i - 13)).take 14

/-- Average gain over the RSI window: positive changes summed and divided
by 14 (`0` when there are none). -/
def rsiAvgGain (cs : List ℚ) (i : ℕ) : ℚ :=
  let gains := (jsChanges (rsiWindow cs i)).filter (fun c => decide (0 < c))
  if gains.length = 0 then 0 else gains.sum / 14

/-- Average loss over the RSI window: negated negative changes summed and
divided by 14 (`0` when there are none). -/
def rsiAvgLoss (cs : List ℚ) (i : ℕ) : ℚ :=
  let losses := ((jsChanges (rsiWindow cs i)).filter (fun c => decide (c < 0))).map
    (fun c => -c)
  if losses.length = 0 then 0 else losses.sum / 14

/-- Relative strength: `avgLoss === 0 ? 100 : avgGain / avgLoss`. -/
def rsiRS (cs : List ℚ) (i : ℕ) : ℚ :=
  if rsiAvgLoss cs i = 0 then 100 else rsiAvgGain cs i / rsiAvgLoss cs i

/-- RSI value at index `i` (the code computes it only for `i ≥ 14`):
`100 - 100 / (1 + rs)`. -/
def rsiAt (cs : List ℚ) (i : ℕ) : ℚ :=
  100 - 100 / (1 + rsiRS cs i)

theorem rsiAvgGain_nonneg (cs : List ℚ) (i : ℕ) : 0 ≤ rsiAvgGain cs i := by
  dsimp only [rsiAvgGain]
  split
  · exact le_refl 0
  · apply div_nonneg _ (by norm_num)
    apply List.sum_nonneg
    intro x hx
    rw [List.mem_filter] at hx
    have := hx.2
    simp only [decide_eq_true_eq] at this
    exact le_of_lt this

theorem rsiAvgLoss_nonneg (cs : List ℚ) (i : ℕ) : 0 ≤ rsiAvgLoss cs i := by
  dsimp only [rsiAvgLoss]
  split
  · exact le_refl 0
  · apply div_nonneg _ (by norm_num)
    apply List.sum_nonneg
    intro x hx
    rw [List.mem_map] at hx
    obtain ⟨c, hc, rfl⟩ := hx
    rw [List.mem_filter] at hc
    have := hc.2
    simp only [decide_eq_true_eq] at this
    linarith

theorem rsiRS_nonneg (cs : List ℚ) (i : ℕ) : 0 ≤ rsiRS cs i := by
  unfold rsiRS
  split
  · norm_num
  · rename_i h
    exact div_nonneg (rsiAvgGain_nonneg cs i)
      (lt_of_le_of_ne (rsiAvgLoss_nonneg cs i) (Ne.symm h)).le

/-- Claim C5: for every series of closes and every index at which the code
defines RSI (`i ≥ 14` and in range), `0 ≤ rsi[i] ≤ 100`, with RS forced to
the constant 100 exactly when the average loss is zero. -/
theorem rsi_bounds (cs : List ℚ) (i : ℕ) (h14 : 14 ≤ i) (hi : i < cs.length) :
    (0 ≤ rsiAt cs i ∧ rsiAt cs i ≤ 100) ∧
    (rsiAvgLoss cs i = 0 → rsiRS cs i = 100) := by
  have hrs : 0 ≤ rsiRS cs i := rsiRS_nonneg cs i
  have hpos : (0 : ℚ) < 1 + rsiRS cs i := by linarith
  constructor
  · constructor
    · have hle : 100 / (1 + rsiRS cs i) ≤ 100 := by
        apply div_le_self (by norm_num)
        linarith
      unfold rsiAt
      linarith
    · have hgt : 0 < 100 / (1 + rsiRS cs i) := div_pos (by norm_num) hpos
      unfold rsiAt
      linarith
  · intro h
    unfold rsiRS
    simp [h]

/-- Witness for claim C5 at the concrete 15-close series
`[1, 2, ..., 15]` and index `i = 14`. -/
theorem rsi_bounds_witness :
    (0 ≤ rsiAt [1, 2, 3, 4, 5, 6, 7, 8, 9, 10, 11, 12, 13, 14, 15] 14 ∧
      rsiAt [1, 2, 3, 4, 5, 6, 7, 8, 9, 10, 11, 12, 13, 14, 15] 14 ≤ 100) ∧
    (rsiAvgLoss [1, 2, 3, 4, 5, 6, 7, 8, 9, 10, 11, 12, 13, 14, 15] 14 = 0 →
      rsiRS [1, 2, 3, 4, 5, 6, 7, 8, 9, 10, 11, 12, 13, 14, 15] 14 = 100) :=
  rsi_bounds [1, 2, 3, 4, 5, 6, 7, 8, 9, 10, 11, 12, 13, 14, 15] 14
    (by norm_num) (by norm_num)

/-! ## Bollinger Bands (20, 2σ)

At index `i` (defined when `i ≥ 19` and `out.sma20` is truthy, i.e.
nonzero) the code computes `mu = sma20`, the population variance of the
same 20-close window, `std = Math.sqrt(variance)`, and the bands
`mu ± 2 * std`.  `Math.sqrt` has no exact rational counterpart, so `std`
enters the definitions as a parameter constrained to be the nonnegative
square root of the rational variance (`0 ≤ std` and `std * std =
variance`), which is exactly what `Math.sqrt` returns. -/

/-- The 20-close window `arr.slice(i - 19, i + 1)`. -/
def sma20Window (cs : List ℚ) (i : ℕ) : List ℚ :=
  (cs.drop (i - 19)).take 20

/-- SMA20 at index `i`: window sum divided by 20. -/
def sma20At (cs : List ℚ) (i : ℕ) : ℚ :=
  (sma20Window cs i).sum / 20

/-- Population variance of the SMA20 window around `mu = sma20`. -/
def varianceAt (cs : List ℚ) (i : ℕ) : ℚ :=
  ((sma20Window cs i).map (fun v => (v - sma20At cs i) ^ 2)).sum / 20

/-- Upper Bollinger band `mu + 2 * std`. -/
def upperBandAt (cs : List ℚ) (i : ℕ) (std : ℚ) : ℚ :=
  sma20At cs i + 2 * std

/-- Lower Bollinger band `mu - 2 * std`. -/
def lowerBandAt (cs : List ℚ) (i : ℕ) (std : ℚ) : ℚ :=
  sma20At cs i - 2 * std

/-- Claim C6: wherever the Bollinger fields are defined (`i ≥ 19`, in
range, truthy SMA20) and `std` is the nonnegative square root of the
window variance (the value `Math.sqrt` produces), the band width equals
`4 × volatility` and the bands bracket the SMA20. -/
theorem bollinger_band_relations (cs : List ℚ) (i : ℕ) (h19 : 19 ≤ i)
    (hi : i < cs.length) (htruthy : sma20At cs i ≠ 0) (std : ℚ)
    (hstd : 0 ≤ std) (hsq : std * std = varianceAt cs i) :
    upperBandAt cs i std - lowerBandAt cs i std = 4 * std ∧
    lowerBandAt cs i std ≤ sma20At cs i ∧
    sma20At cs i ≤ upperBandAt cs i std := by
  unfold upperBandAt lowerBandAt
  refine ⟨by ring, by linarith, by linarith⟩

/-- Witness for claim C6: twenty closes alternating between 11 and 9 have
SMA20 = 10 and population variance exactly 1, so `std = 1`. -/
theorem bollinger_band_relations_witness :
    upperBandAt [11, 9, 11, 9, 11, 9, 11, 9, 11, 9, 11, 9, 11, 9, 11, 9, 11, 9, 11, 9]
        19 1 -
      lowerBandAt [11, 9, 11, 9, 11, 9, 11, 9, 11, 9, 11, 9, 11, 9, 11, 9, 11, 9, 11, 9]
        19 1 = 4 * 1 ∧
    lowerBandAt [11, 9, 11, 9, 11, 9, 11, 9, 11, 9, 11, 9, 11, 9, 11, 9, 11, 9, 11, 9]
        19 1 ≤
      sma20At [11, 9, 11, 9, 11, 9, 11, 9, 11, 9, 11, 9, 11, 9, 11, 9, 11, 9, 11, 9] 19 ∧
    sma20At [11, 9, 11, 9, 11, 9, 11, 9, 11, 9, 11, 9, 11, 9, 11, 9, 11, 9, 11, 9] 19 ≤
      upperBandAt [11, 9, 11, 9, 11, 9, 11, 9, 11, 9, 11, 9, 11, 9, 11, 9, 11, 9, 11, 9]
        19 1 :=
  bollinger_band_relations
    [11, 9, 11, 9, 11, 9, 11, 9, 11, 9, 11, 9, 11, 9, 11, 9, 11, 9, 11, 9] 19
    (by norm_num) (by norm_num)
    (by norm_num [sma20At, sma20Window])
    1 (by norm_num)
    (by norm_num [varianceAt, sma20At, sma20Window])

/-! ## Regression trainer

Two near-identical copies of the linear trainer exist: the component
version (`GoogleStockAnalysis.jsx`, also `trainLinear` in the second
component) guards the OLS denominator with `|| 1`; the `main.jsx` version
divides by `n * sumX2 - sumX * sumX` unguarded, so a degenerate train
partition makes it divide by zero (producing NaN/Infinity in JS).  The two
callers always pass equal-length `X`/`y`; `zipWith` encodes `x * y[i]`
under that precondition. -/

/-- OLS slope numerator `n * Σxy - Σx * Σy`. -/
def olsNum (X y : List ℚ) : ℚ :=
  (X.length : ℚ) * (X.zipWith (· * ·) y).sum - X.sum * y.sum

/-- OLS slope denominator `n * Σx² - (Σx)²`. -/
def olsDenom (X : List ℚ) : ℚ :=
  (X.length : ℚ) * (X.map (fun x => x * x)).sum - X.sum * X.sum

/-- Fitted linear model `{ slope, intercept }`. -/
structure LinModel where
  slope : ℚ
  intercept : ℚ
deriving DecidableEq, Repr

/-- The model's `predict: (x) => slope * x + intercept`. -/
def LinModel.predict (m : LinModel) (x : ℚ) : ℚ :=
  m.slope * x + m.intercept

/-- Component trainer (`GoogleStockAnalysis.jsx`):
`const denom = n * sumX2 - sumX * sumX || 1;` then
`slope = (n * sumXY - sumX * sumY) / denom` and
`intercept = (sumY - slope * sumX) / n`. -/
def trainLinearRegression (X y : List ℚ) : LinModel :=
  let denom := if olsDenom X = 0 then 1 else olsDenom X
  let slope := olsNum X y / denom
  { slope := slope, intercept := (y.sum - slope * X.sum) / (X.length : ℚ) }

/-- Fitted linear model of the unguarded `main.jsx` trainer, whose fields
can be non-finite. -/
structure LinModelJs where
  slope : JsNum
  intercept : JsNum
deriving DecidableEq, Repr

/-- The `main.jsx` trainer: `slope = (n * sumXY - sumX * sumY) /
(n * sumX2 - sumX * sumX)` with no guard, then
`intercept = (sumY - slope * sumX) / n`, under JS division semantics. -/
def trainLinearRegressionMain (X y : List ℚ) : LinModelJs :=
  let slope := jsDiv (olsNum X y) (olsDenom X)
  { slope := slope,
    intercept := jsDivNQ (jsSubQN y.sum (jsMulNQ slope X.sum)) (X.length : ℚ) }

/-- Claim C7 (counterexample): on the degenerate single-point train
partition `X = [0]`, `y = [5]` the `main.jsx` trainer — one of the two
cited implementations — performs the division `0 / 0` and produces the
slope `NaN`; it does not substitute 1 (the guarded component trainer on
the same input yields the finite slope `0 / 1 = 0`). -/
theorem trainLinearMain_unguarded_counterexample :
    (trainLinearRegressionMain [0] [5]).slope = JsNum.nan ∧
    olsDenom [0] = 0 ∧
    (trainLinearRegression [0] [5]).slope = 0 := by
  refine ⟨?_, ?_, ?_⟩
  · norm_num [trainLinearRegressionMain, olsNum, olsDenom, jsDiv]
  · norm_num [olsDenom]
  · norm_num [trainLinearRegression, olsNum, olsDenom]

/-- Claim C7 (amended): the component trainer guards the OLS denominator,
dividing by 1 instead when `n * Σx² - (Σx)²` is zero (so its divisor is
never zero), and computes `slope = (n * Σxy - Σx * Σy) / denom` and
`intercept = (Σy - slope * Σx) / n`; the `main.jsx` copy performs the
division unguarded. -/
theorem trainLinearRegression_guarded (X y : List ℚ) :
    (if olsDenom X = 0 then (1 : ℚ) else olsDenom X) ≠ 0 ∧
    (trainLinearRegression X y).slope =
      olsNum X y / (if olsDenom X = 0 then 1 else olsDenom X) ∧
    (trainLinearRegression X y).intercept =
      (y.sum - (trainLinearRegression X y).slope * X.sum) / (X.length : ℚ) := by
  refine ⟨?_, rfl, rfl⟩
  by_cases h : olsDenom X = 0
  · simp [h]
  · simp [h]

/-! ## Forecaster (the 30-step loop of both initialisation routines)

`for (let i = 1; i <= 30; i++) { const idx = cleaned.length + i - 1; ... }`
evaluates both fitted models at `idx` and pushes
`{ day: i, linear, polynomial, ensemble: (l + p) / 2 }`. -/

/-- Fitted quadratic model `{ a, b, c }`. -/
structure PolyModel where
  a : ℚ
  b : ℚ
  c : ℚ
deriving DecidableEq, Repr

/-- The model's `predict: (x) => a * x * x + b * x + c`. -/
def PolyModel.predict (m : PolyModel) (x : ℚ) : ℚ :=
  m.a * x * x + m.b * x + m.c

/-- One point of the 30-day forecast. -/
structure ForecastPoint where
  day : ℕ
  linear : ℚ
  polynomial : ℚ
  ensemble : ℚ
deriving DecidableEq, Repr

/-- The 30-step forecast loop over a cleaned series of length `len`. -/
def forecast (lin : LinModel) (poly : PolyModel) (len : ℕ) : List ForecastPoint :=
  (List.range 30).map (fun k =>
    let i := k + 1
    let idx : ℚ := ((len + i - 1 : ℕ) : ℚ)
    { day := i, linear := lin.predict idx, polynomial := poly.predict idx,
      ensemble := (lin.predict idx + poly.predict idx) / 2 })

/-- Claim C8: over a cleaned series with last observed index `L` (length
`L + 1`), the forecast point at step `s` (1 ≤ s ≤ 30) evaluates both models
at index `L + s` and averages them for the ensemble; in particular the
first point's linear component is `linearModel.predict(L + 1)`. -/
theorem forecast_step_evaluates_models (lin : LinModel) (poly : PolyModel)
    (L s : ℕ) (h1 : 1 ≤ s) (h30 : s ≤ 30) :
    (forecast lin poly (L + 1))[s - 1]? =
      some { day := s, linear := lin.predict ((L + s : ℕ) : ℚ),
             polynomial := poly.predict ((L + s : ℕ) : ℚ),
             ensemble := (lin.predict ((L + s : ℕ) : ℚ) +
               poly.predict ((L + s : ℕ) : ℚ)) / 2 } := by
  have hlt : s - 1 < 30 := by omega
  unfold forecast
  rw [List.getElem?_map, List.getElem?_range hlt]
  have h1' : s - 1 + 1 = s := by omega
  have h2 : L + 1 + (s - 1 + 1) - 1 = L + s := by omega
  simp [h1', h2]
  have hc : ((s - 1 : ℕ) : ℚ) = (s : ℚ) - 1 := Nat.cast_sub h1
  have harg : (L : ℚ) + 1 + ((s - 1 : ℕ) : ℚ) = (L : ℚ) + (s : ℚ) := by
    rw [hc]; ring
  refine ⟨by rw [harg], by rw [harg], by rw [harg]⟩

/-- Witness for claim C8 at the concrete models `slope 2, intercept 5` /
`a 1, b 0, c 3`, last observed index `L = 10`, step `s = 1`. -/
theorem forecast_step_evaluates_models_witness :
    (forecast ⟨2, 5⟩ ⟨1, 0, 3⟩ (10 + 1))[1 - 1]? =
      some { day := 1, linear := LinModel.predict ⟨2, 5⟩ ((10 + 1 : ℕ) : ℚ),
             polynomial := PolyModel.predict ⟨1, 0, 3⟩ ((10 + 1 : ℕ) : ℚ),
             ensemble := (LinModel.predict ⟨2, 5⟩ ((10 + 1 : ℕ) : ℚ) +
               PolyModel.predict ⟨1, 0, 3⟩ ((10 + 1 : ℕ) : ℚ)) / 2 } :=
  forecast_step_evaluates_models ⟨2, 5⟩ ⟨1, 0, 3⟩ 10 1 (by norm_num) (by norm_num)

/-! ## Signal engine (`generateSignal` in the second component)

`generateSignal(rows)` reads the last two indicator records.  The RSI rules
compare `last.rsi` (when defined) with 35/65; the crossover rules test
truthiness of `last.sma20`/`last.sma50` (defined and nonzero) and compare
the pairs, where a JS comparison involving `undefined` is false.  The
confidence is `Math.min(90, 50 + votes * 20)` with
`votes = [rsiBuy || rsiSell, smaBull || smaBear].filter(Boolean).length`. -/

/-- Indicator record as consumed by `generateSignal` (only the fields the
signal rules read). -/
structure IndicatorRec where
  close : ℚ
  rsi : Option ℚ
  sma20 : Option ℚ
  sma50 : Option ℚ
  volatility : Option ℚ
deriving DecidableEq, Repr, Inhabited

/-- JavaScript truthiness of a possibly-undefined number: defined and
nonzero. -/
def truthy (o : Option ℚ) : Bool :=
  match o with
  | some q => decide (q ≠ 0)
  | none => false

/-- JavaScript `a < b` on possibly-undefined numbers: false when either
side is `undefined` (NaN comparison). -/
def jsLt (a b : Option ℚ) : Bool :=
  match a, b with
  | some x, some y => decide (x < y)
  | _, _ => false

/-- JavaScript `a <= b` on possibly-undefined numbers. -/
def jsLe (a b : Option ℚ) : Bool :=
  match a, b with
  | some x, some y => decide (x ≤ y)
  | _, _ => false

/-- `rsiBuy`: `last.rsi !== undefined && last.rsi < 35`. -/
def rsiBuy (last : IndicatorRec) : Bool :=
  last.rsi.isSome && jsLt last.rsi (some 35)

/-- `rsiSell`: `last.rsi !== undefined && last.rsi > 65`. -/
def rsiSell (last : IndicatorRec) : Bool :=
  last.rsi.isSome && jsLt (some 65) last.rsi

/-- `smaBull`: `last.sma20 && last.sma50 && last.sma20 > last.sma50 &&
prev.sma20 <= prev.sma50`. -/
def smaBull (last prev : IndicatorRec) : Bool :=
  truthy last.sma20 && truthy last.sma50 && jsLt last.sma50 last.sma20 &&
    jsLe prev.sma20 prev.sma50

/-- `smaBear`: `last.sma20 && last.sma50 && last.sma20 < last.sma50 &&
prev.sma20 >= prev.sma50`. -/
def smaBear (last prev : IndicatorRec) : Bool :=
  truthy last.sma20 && truthy last.sma50 && jsLt last.sma20 last.sma50 &&
    jsLe prev.sma50 prev.sma20

/-- `votes = [rsiBuy || rsiSell, smaBull || smaBear].filter(Boolean).length`. -/
def signalVotes (last prev : IndicatorRec) : ℕ :=
  (([rsiBuy last || rsiSell last, smaBull last prev || smaBear last prev] :
    List Bool).filter id).length

/-- The signal confidence `Math.min(90, 50 + votes * 20)`, reading the last
two records the way `rows[n - 1]` / `rows[n - 2]` do. -/
def signalProbability (rows : List IndicatorRec) : ℕ :=
  let last := rows.getD (rows.length - 1) default
  let prev := rows.getD (rows.length - 2) default
  min 90 (50 + signalVotes last prev * 20)

/-- Number of rule families (RSI, moving-average crossover) with at least
one vote, as the claim words it. -/
def familiesVoting (last prev : IndicatorRec) : ℕ :=
  (rsiBuy last || rsiSell last).toNat + (smaBull last prev || smaBear last prev).toNat

/-- Confidence arithmetic for the two vote families: the capped value
always equals the uncapped `50 + 20 × (families voting)` and lies in
`{50, 70, 90}`. -/
theorem signalVotes_min (b1 b2 : Bool) :
    min 90 (50 + (([b1, b2] : List Bool).filter id).length * 20) =
      50 + 20 * (b1.toNat + b2.toNat) ∧
    (min 90 (50 + (([b1, b2] : List Bool).filter id).length * 20) = 50 ∨
      min 90 (50 + (([b1, b2] : List Bool).filter id).length * 20) = 70 ∨
      min 90 (50 + (([b1, b2] : List Bool).filter id).length * 20) = 90) := by
  cases b1 <;> cases b2 <;> decide

/-- Claim C9: for a series of at least 2 indicator records, the confidence
equals `50 + 20 ×` the number of rule families with at least one vote (the
90 cap never binds since there are only two families), so it is always one
of 50, 70, 90. -/
theorem signalProbability_formula (rows : List IndicatorRec)
    (h2 : 2 ≤ rows.length) :
    signalProbability rows =
      50 + 20 * familiesVoting (rows.getD (rows.length - 1) default)
        (rows.getD (rows.length - 2) default) ∧
    (signalProbability rows = 50 ∨ signalProbability rows = 70 ∨
      signalProbability rows = 90) := by
  dsimp only [signalProbability, familiesVoting, signalVotes]
  exact signalVotes_min _ _

/-- Concrete two-record indicator series: previous RSI 40, current RSI 28
(below 35), no moving-average crossover. -/
def signalRowsExample : List IndicatorRec :=
  [{ close := 100, rsi := some 40, sma20 := some 10, sma50 := some 20,
     volatility := some 1 },
   { close := 100, rsi := some 28, sma20 := some 10, sma50 := some 20,
     volatility := some 1 }]

/-- Witness for claim C9 on a concrete two-record series whose current RSI
is below 35 (one family voting: confidence 70). -/
theorem signalProbability_formula_witness :
    signalProbability signalRowsExample =
      50 + 20 * familiesVoting
        (signalRowsExample.getD (signalRowsExample.length - 1) default)
        (signalRowsExample.getD (signalRowsExample.length - 2) default) ∧
    (signalProbability signalRowsExample = 50 ∨
      signalProbability signalRowsExample = 70 ∨
      signalProbability signalRowsExample = 90) :=
  signalProbability_formula signalRowsExample (by norm_num [signalRowsExample])
